import Mathlib

/-!
Shallow embedding of the TimesheetSimplifier persistence and aggregation
layer (`src/utils.py` together with the data models in `src/src/models.py`).

Modelling conventions:
* Calendar dates are modelled as integers (day numbers).  Python keys the
  entry store by `date.isoformat()`, which is injective on dates, and
  `date.fromisoformat` is its inverse; keying the map by the date itself
  is therefore faithful.
* Python `float` hour values are modelled as rationals (`ℚ`).
* A pandas cell is `Option String`: `none` is a missing/NA cell
  (`pd.notna` false), `some v` a present value already stringified.
* Python dicts are modelled as association lists in insertion order:
  assignment to an existing key updates it in place, assignment to a new
  key appends at the end, exactly as Python dicts behave.
* JSON persistence is modelled as the data written: `save_entries` stores
  the serialized document in the `saved` field of the manager state.
-/

namespace Timesheet

/-- Lookup in an insertion-ordered association list (Python `dict[k]` /
`k in dict` / `dict.get(k)`). -/
def alistFind {α β : Type} [DecidableEq α] : List (α × β) → α → Option β
  | [], _ => none
  | (k, v) :: rest, k0 => if k0 = k then some v else alistFind rest k0

/-- Assignment in an insertion-ordered association list (Python
`dict[k] = v`): update in place when the key exists, append otherwise. -/
def alistSet {α β : Type} [DecidableEq α] : List (α × β) → α → β → List (α × β)
  | [], k0, v0 => [(k0, v0)]
  | (k, v) :: rest, k0, v0 =>
    if k0 = k then (k, v0) :: rest else (k, v) :: alistSet rest k0 v0

theorem alistFind_alistSet {α β : Type} [DecidableEq α]
    (m : List (α × β)) (k : α) (v : β) (k0 : α) :
    alistFind (alistSet m k v) k0 = if k0 = k then some v else alistFind m k0 := by
  induction m with
  | nil =>
    by_cases h : k0 = k <;> simp [alistSet, alistFind, h]
  | cons p rest ih =>
    obtain ⟨k1, v1⟩ := p
    by_cases h1 : k = k1
    · subst h1
      by_cases h0 : k0 = k <;> simp [alistSet, alistFind, h0]
    · by_cases h0 : k0 = k1
      · subst h0
        have hk : ¬ k0 = k := fun h => h1 h.symm
        simp [alistSet, alistFind, h1, hk]
      · simp [alistSet, alistFind, h1, h0, ih]

theorem alistSet_of_find_none {α β : Type} [DecidableEq α]
    (m : List (α × β)) (k : α) (v : β) (h : alistFind m k = none) :
    alistSet m k v = m ++ [(k, v)] := by
  induction m with
  | nil => simp [alistSet]
  | cons p rest ih =>
    obtain ⟨k1, v1⟩ := p
    by_cases h1 : k = k1
    · subst h1
      simp [alistFind] at h
    · simp [alistFind, h1] at h
      simp [alistSet, h1, ih h]

theorem alistFind_append_single {α β : Type} [DecidableEq α]
    (m : List (α × β)) (k : α) (v : β) (k0 : α) :
    alistFind (m ++ [(k, v)]) k0 =
      ((alistFind m k0).orElse (fun _ => if k0 = k then some v else none)) := by
  induction m with
  | nil => simp [alistFind]
  | cons p rest ih =>
    obtain ⟨k1, v1⟩ := p
    by_cases h0 : k0 = k1 <;> simp [alistFind, h0, ih]

/-- Model of `models.TimeEntry` — a single logged time entry.  Timestamps are kept
as their serialized string forms (the claims never inspect them). -/
structure TimeEntry where
  id : String
  date : Int
  charge_code_id : String
  charge_code_name : String
  hours : ℚ
  notes : Option String
  created_at : String
  updated_at : String
deriving DecidableEq, Repr

/-- The pydantic validation of `TimeEntry.hours`: `Field(gt=0, le=24)`
together with `validate_hours`. -/
def hoursValid (h : ℚ) : Prop := 0 < h ∧ h ≤ 24

instance (h : ℚ) : Decidable (hoursValid h) := by
  unfold hoursValid; infer_instance

/-- Model of `models.DailyEntries` — entries of one date with the derived total. -/
structure DailyEntries where
  date : Int
  entries : List TimeEntry
  total_hours : ℚ
deriving DecidableEq, Repr

/-- Model of `DailyEntries.recalculate_total`. -/
def DailyEntries.recalculate_total (d : DailyEntries) : DailyEntries :=
  { d with total_hours := (d.entries.map TimeEntry.hours).sum }

/-- Model of `DailyEntries.add_entry`: append then recalculate. -/
def DailyEntries.add_entry (d : DailyEntries) (e : TimeEntry) : DailyEntries :=
  DailyEntries.recalculate_total { d with entries := d.entries ++ [e] }

/-- Model of `DailyEntries.remove_entry`: drop every entry with the id, then
recalculate. -/
def DailyEntries.remove_entry (d : DailyEntries) (entry_id : String) : DailyEntries :=
  DailyEntries.recalculate_total
    { d with entries := d.entries.filter (fun e => !(e.id == entry_id)) }

/-- One value of `WeeklySummary.entries_by_charge_code`. -/
structure ChargeCodeGroup where
  name : String
  total_hours : ℚ
  entries : List TimeEntry
deriving DecidableEq, Repr

/-- Model of `models.WeeklySummary`. -/
structure WeeklySummary where
  week_start : Int
  week_end : Int
  total_hours : ℚ
  entries_by_charge_code : List (String × ChargeCodeGroup)
  daily_totals : List (Int × ℚ)
deriving DecidableEq, Repr

/-- The body of the `for entry in daily.entries` loop of
`WeeklySummary.add_daily_entries`: fold one entry into the per-charge-code
groups. -/
def foldGroup (g : List (String × ChargeCodeGroup)) (e : TimeEntry) :
    List (String × ChargeCodeGroup) :=
  let cur : ChargeCodeGroup := match alistFind g e.charge_code_id with
    | none => { name := e.charge_code_name, total_hours := 0, entries := [] }
    | some c => c
  alistSet g e.charge_code_id
    { cur with total_hours := cur.total_hours + e.hours,
               entries := cur.entries ++ [e] }

/-- Model of `WeeklySummary.add_daily_entries`: record the day's total, accumulate
per-charge-code groups, then `recalculate_total` (sum of
`daily_totals.values()`). -/
def WeeklySummary.add_daily_entries (s : WeeklySummary) (daily : DailyEntries) :
    WeeklySummary :=
  let dt := alistSet s.daily_totals daily.date daily.total_hours
  { s with daily_totals := dt,
           entries_by_charge_code := daily.entries.foldl foldGroup s.entries_by_charge_code,
           total_hours := (dt.map Prod.snd).sum }

/-- The serialized form of one entry as written to `time_entries.json`:
`entry.dict()` passed through `json.dump(..., default=str)`.  The date
field is the ISO string, modelled by the underlying day number; the
datetime timestamps serialize with `str` (identity here since timestamps
are already kept as strings). -/
structure EntryRecord where
  id : String
  date : Int
  charge_code_id : String
  charge_code_name : String
  hours : ℚ
  notes : Option String
  created_at : String
  updated_at : String
deriving DecidableEq, Repr

/-- The record `entry.dict()` as serialized by `save_entries`. -/
def TimeEntry.dict (e : TimeEntry) : EntryRecord :=
  { id := e.id, date := e.date, charge_code_id := e.charge_code_id,
    charge_code_name := e.charge_code_name, hours := e.hours,
    notes := e.notes, created_at := e.created_at, updated_at := e.updated_at }

/-- The persisted document: date key → serialized entry records. -/
abbrev SavedDoc := List (Int × List EntryRecord)

/-- The in-memory store: date key → entries (`TimeEntryManager.entries`). -/
abbrev EntryMap := List (Int × List TimeEntry)

/-- The serialization loop of `TimeEntryManager.save_entries`. -/
def serializeEntries (m : EntryMap) : SavedDoc :=
  m.map (fun p => (p.1, p.2.map TimeEntry.dict))

/-- The call `TimeEntry(**entry)` during `load_entries`: pydantic re-validates the
hours bound; an out-of-range value raises (modelled as `none`). -/
def parseEntry (r : EntryRecord) : Option TimeEntry :=
  if hoursValid r.hours then
    some { id := r.id, date := r.date, charge_code_id := r.charge_code_id,
           charge_code_name := r.charge_code_name, hours := r.hours,
           notes := r.notes, created_at := r.created_at,
           updated_at := r.updated_at }
  else none

/-- Parse one date bucket; any entry failing validation aborts the load
(the Python `except` clause). -/
def parseBucket : List EntryRecord → Option (List TimeEntry)
  | [] => some []
  | r :: rest =>
    match parseEntry r, parseBucket rest with
    | some e, some es => some (e :: es)
    | _, _ => none

/-- Parse the whole persisted document. -/
def parseDoc : SavedDoc → Option EntryMap
  | [] => some []
  | (d, recs) :: rest =>
    match parseBucket recs, parseDoc rest with
    | some es, some m => some ((d, es) :: m)
    | _, _ => none

/-- Model of `TimeEntryManager.load_entries`: a document that fails to parse
degrades to an empty store (the `except` branch prints and returns `{}`). -/
def load_entries (doc : SavedDoc) : EntryMap :=
  (parseDoc doc).getD []

/-- The state of `TimeEntryManager`: the configured
`features.max_hours_per_day` (default 24), the in-memory date→entries
dict, and the persisted document. -/
structure TimeEntryManager where
  max_hours : ℚ
  entries : EntryMap
  saved : SavedDoc
deriving DecidableEq, Repr

namespace TimeEntryManager

/-- Model of `TimeEntryManager.save_entries`: rewrite the whole persisted document
from the in-memory store. -/
def save_entries (m : TimeEntryManager) : TimeEntryManager :=
  { m with saved := serializeEntries m.entries }

/-- Model of `TimeEntryManager.add_entry`.  Note the exact statement order of the
source: the empty bucket is created *before* the daily-cap check. -/
def add_entry (m : TimeEntryManager) (entry : TimeEntry) :
    TimeEntryManager × Bool :=
  let date_str := entry.date
  let m1 := if (alistFind m.entries date_str).isSome then m
            else { m with entries := alistSet m.entries date_str [] }
  let bucket := (alistFind m1.entries date_str).getD []
  let total_hours := (bucket.map TimeEntry.hours).sum + entry.hours
  if total_hours > m.max_hours then (m1, false)
  else
    (save_entries { m1 with entries := alistSet m1.entries date_str (bucket ++ [entry]) },
     true)

/-- Model of `TimeEntryManager.get_entries_for_date`. -/
def get_entries_for_date (m : TimeEntryManager) (d : Int) : List TimeEntry :=
  (alistFind m.entries d).getD []

/-- Model of `TimeEntryManager.get_daily_entries`: build the snapshot and
recalculate its total. -/
def get_daily_entries (m : TimeEntryManager) (d : Int) : DailyEntries :=
  DailyEntries.recalculate_total
    { date := d, entries := m.get_entries_for_date d, total_hours := 0 }

/-- Model of `TimeEntryManager.delete_entry`. -/
def delete_entry (m : TimeEntryManager) (entry_id : String) (d : Int) :
    TimeEntryManager × Bool :=
  match alistFind m.entries d with
  | some bucket =>
    let kept := bucket.filter (fun e => !(e.id == entry_id))
    (save_entries { m with entries := alistSet m.entries d kept }, true)
  | none => (m, false)

/-- Model of `TimeEntryManager.get_entries_for_range`: the `while current_date <=
end_date` loop, collecting each day's bucket in ascending date order. -/
def get_entries_for_range (m : TimeEntryManager) (start_date end_date : Int) :
    List TimeEntry :=
  if _h : start_date ≤ end_date then
    m.get_entries_for_date start_date ++ m.get_entries_for_range (start_date + 1) end_date
  else []
termination_by (end_date + 1 - start_date).toNat
decreasing_by simp_wf; omega

/-- The `while current_date <= week_end` loop of `get_weekly_summary`. -/
def weekly_loop (m : TimeEntryManager) (current_date week_end : Int)
    (summary : WeeklySummary) : WeeklySummary :=
  if _h : current_date ≤ week_end then
    let daily := m.get_daily_entries current_date
    m.weekly_loop (current_date + 1) week_end
      (if daily.entries.isEmpty then summary else summary.add_daily_entries daily)
  else summary
termination_by (week_end + 1 - current_date).toNat
decreasing_by simp_wf; omega

/-- Model of `TimeEntryManager.get_weekly_summary`. -/
def get_weekly_summary (m : TimeEntryManager) (week_start : Int) : WeeklySummary :=
  m.weekly_loop week_start (week_start + 6)
    { week_start := week_start, week_end := week_start + 6, total_hours := 0,
      entries_by_charge_code := [], daily_totals := [] }

end TimeEntryManager

/-- The in-memory mapping and the persisted document agree (the state in
which every freshly persisted store finds itself). -/
def Synced (m : TimeEntryManager) : Prop :=
  m.saved = serializeEntries m.entries

instance (m : TimeEntryManager) : Decidable (Synced m) := by
  unfold Synced; infer_instance

/-- The static `column_mapping` table of `load_charge_codes`. -/
def column_mapping : List (String × List String) :=
  [("friendly_name", ["friendly_name", "name", "project_name", "task_name"]),
   ("percent", ["percent", "percentage", "%"]),
   ("task_source", ["task_source", "task source", "source"]),
   ("task", ["task"]),
   ("sub_task", ["sub_task", "subtask", "sub task"]),
   ("operating_unit", ["operating_unit", "operating unit", "unit"]),
   ("process", ["process"]),
   ("project", ["project", "project_code"]),
   ("activity", ["activity"]),
   ("customer_segment", ["customer_segment", "customer segment", "segment"])]

/-- Python `str.strip()`: drop leading and trailing whitespace. -/
def pyStrip (s : String) : String :=
  ⟨((s.data.dropWhile Char.isWhitespace).reverse.dropWhile Char.isWhitespace).reverse⟩

/-- Python `str.lower()`. -/
def pyLower (s : String) : String :=
  ⟨s.data.map Char.toLower⟩

/-- Python `str.replace(' ', '_')` — the pattern is a single character,
so a character-wise map is exact. -/
def replaceSpaces (s : String) : String :=
  ⟨s.data.map (fun c => if c = ' ' then '_' else c)⟩

/-- Header normalization: `df.columns.str.strip().str.lower().str.replace(' ', '_')`. -/
def normalizeHeader (s : String) : String :=
  replaceSpaces (pyLower (pyStrip s))

/-- The result of Python's `float(str)` coercion, which pydantic v1
applies to a string assigned to the `Optional[float]` field `percent`.
A finite result keeps the exact decimal value (IEEE rounding is not
modelled — no claim inspects the numeric value, only whether the
coercion succeeds); infinities and NaN are tags. -/
inductive PyFloat where
  | finite (val : ℚ)
  | infinite (neg : Bool)
  | nan
deriving DecidableEq, Repr

/-- Consume a run of ASCII digits, allowing single underscores strictly
between digits (CPython's rule for `float` literals).  Returns the
accumulated value, the number of digits consumed, and the rest; an
underscore in an illegal position is left in the rest, which then fails
the whole parse as trailing input. -/
def digitsAux (acc ndigits : ℕ) : List Char → ℕ × ℕ × List Char
  | c :: cs =>
    if c.isDigit then digitsAux (10 * acc + (c.toNat - 48)) (ndigits + 1) cs
    else if c = '_' ∧ 0 < ndigits then
      match cs with
      | d :: cs2 =>
        if d.isDigit then digitsAux (10 * acc + (d.toNat - 48)) (ndigits + 1) cs2
        else (acc, ndigits, c :: d :: cs2)
      | [] => (acc, ndigits, [c])
    else (acc, ndigits, c :: cs)
  | [] => (acc, ndigits, [])

/-- The optional exponent suffix `(e|E) [+|-] digits`; anything else left
over makes the conversion fail. -/
def parseExp (mant : ℚ) : List Char → Option ℚ
  | [] => some mant
  | c :: r1 =>
    if c = 'e' ∨ c = 'E' then
      let signAndRest : Bool × List Char :=
        match r1 with
        | '+' :: t => (false, t)
        | '-' :: t => (true, t)
        | t => (false, t)
      let (ev, ne, r3) := digitsAux 0 0 signAndRest.2
      if ne = 0 ∨ ¬ r3 = [] then none
      else some (mant * (10 : ℚ) ^ (if signAndRest.1 then -(ev : ℤ) else (ev : ℤ)))
    else none

/-- The unsigned numeric body: `digits [. [digits]] [exp]` or
`. digits [exp]`, with at least one digit overall. -/
def pyFloatMagnitude (cs : List Char) : Option ℚ :=
  let (ip, ni, r1) := digitsAux 0 0 cs
  match r1 with
  | '.' :: r2 =>
    let (fp, nf, r3) := digitsAux 0 0 r2
    if ni = 0 ∧ nf = 0 then none
    else parseExp (((ip : ℚ) * (10 : ℚ) ^ nf + (fp : ℚ)) / (10 : ℚ) ^ nf) r3
  | _ =>
    if ni = 0 then none else parseExp (ip : ℚ) r1

/-- Python `float(str)`: strip whitespace, optional sign, then
`inf`/`infinity`/`nan` (case-insensitive) or a decimal literal; `none`
models the `ValueError`/pydantic `ValidationError` on anything else.
Digits are modelled as ASCII. -/
def pyFloatParse (s : String) : Option PyFloat :=
  let cs := (pyStrip s).data
  let signAndRest : Bool × List Char :=
    match cs with
    | '+' :: t => (false, t)
    | '-' :: t => (true, t)
    | t => (false, t)
  let low := pyLower ⟨signAndRest.2⟩
  if low = "inf" ∨ low = "infinity" then some (PyFloat.infinite signAndRest.1)
  else if low = "nan" then some PyFloat.nan
  else
    match pyFloatMagnitude signAndRest.2 with
    | none => none
    | some m => some (PyFloat.finite (if signAndRest.1 then -m else m))

/-- Model of `models.ChargeCode`, restricted to the fields populated by
`load_charge_codes` (id, active flag, created_at and full_code keep their
defaults there).  `percent` is declared `Optional[float]` in the pydantic
model and holds the coerced value; the other nine populated fields are
`Optional[str]` and hold the trimmed strings as-is. -/
structure ChargeCode where
  friendly_name : String
  percent : Option PyFloat := none
  task_source : Option String := none
  task : Option String := none
  sub_task : Option String := none
  operating_unit : Option String := none
  process : Option String := none
  project : Option String := none
  activity : Option String := none
  customer_segment : Option String := none
deriving DecidableEq, Repr

/-- A parsed row: normalized column name → cell (`none` = NA). -/
abbrev Row := List (String × Option String)

/-- The inner alias loop of `load_charge_codes`: the first alias whose
column exists *and* whose cell is non-NA wins; its value is stringified
and trimmed.  An alias whose column exists but whose cell is NA does not
break the loop. -/
def lookupField (columns : List String) (row : Row) : List String → Option String
  | [] => none
  | col_name :: rest =>
    if columns.contains col_name then
      match alistFind row col_name with
      | some (some v) => some (pyStrip v)
      | _ => lookupField columns row rest
    else lookupField columns row rest

/-- Alias list of a logical field, read from `column_mapping`. -/
def fieldAliases (field : String) : List String :=
  (alistFind column_mapping field).getD []

/-- Outcome of processing one row: skipped by the `continue` (no
`friendly_name` in `charge_code_data`), a constructed record, or a
pydantic `ValidationError` raised by `ChargeCode(**charge_code_data)`
when a present `percent` string does not coerce to float — an exception
that propagates and aborts the entire load. -/
inductive RowOutcome where
  | skipped
  | record (c : ChargeCode)
  | error
deriving DecidableEq, Repr

/-- The per-row body of `load_charge_codes`: build `charge_code_data`,
skip the row (`continue`) when `friendly_name` is absent from it —
*before* the `ChargeCode(**charge_code_data)` call, so a bad `percent`
cell on a skipped row raises nothing — and otherwise construct the
record, with pydantic coercing a present `percent` string via
`float(...)` and raising on failure. -/
def processRow (columns : List String) (row : Row) : RowOutcome :=
  match lookupField columns row (fieldAliases "friendly_name") with
  | none => RowOutcome.skipped
  | some fn =>
    let base : ChargeCode :=
      { friendly_name := fn,
        percent := none,
        task_source := lookupField columns row (fieldAliases "task_source"),
        task := lookupField columns row (fieldAliases "task"),
        sub_task := lookupField columns row (fieldAliases "sub_task"),
        operating_unit := lookupField columns row (fieldAliases "operating_unit"),
        process := lookupField columns row (fieldAliases "process"),
        project := lookupField columns row (fieldAliases "project"),
        activity := lookupField columns row (fieldAliases "activity"),
        customer_segment := lookupField columns row (fieldAliases "customer_segment") }
    match lookupField columns row (fieldAliases "percent") with
    | none => RowOutcome.record base
    | some ps =>
      match pyFloatParse ps with
      | none => RowOutcome.error
      | some v => RowOutcome.record { base with percent := some v }

/-- The `for _, row in df.iterrows()` loop: accumulate records, skip
rows without a friendly name, and let a `ValidationError` abort the
whole call (`none`). -/
def loadRows (columns : List String) : List Row → Option (List ChargeCode)
  | [] => some []
  | row :: rest =>
    match processRow columns row with
    | RowOutcome.skipped => loadRows columns rest
    | RowOutcome.record c => (loadRows columns rest).map (fun l => c :: l)
    | RowOutcome.error => none

/-- The row loop of `ChargeCodeManager.load_charge_codes`, applied to a
parsed dataframe: raw header names plus the cell lists of each row
(aligned with the headers).  `none` is the load aborting with a raised
`ValidationError`; file reading and the extension dispatch to
`pd.read_excel` / `pd.read_csv` are outside the model. -/
def load_charge_codes (rawCols : List String) (rowCells : List (List (Option String))) :
    Option (List ChargeCode) :=
  let columns := rawCols.map normalizeHeader
  loadRows columns (rowCells.map (fun cs => columns.zip cs))

/-- The state of `ChargeCodeManager`: the loaded records and the
modification time recorded at the last load (`None` before any load). -/
structure ChargeCodeManager where
  charge_codes : List ChargeCode
  last_modified : Option ℚ
deriving DecidableEq, Repr

/-- A located charge-code reference file: its modification time and its
parsed contents. -/
structure RefFile where
  mtime : ℚ
  rawCols : List String
  rowCells : List (List (Option String))
deriving DecidableEq, Repr

/-- Model of `ChargeCodeManager.load_charge_codes` as a state update:
on success replace the collection wholesale and record the file's
modification time; `none` is the `ValidationError` propagating (the
assignments after the loop never run). -/
def ChargeCodeManager.load_from (f : RefFile) : Option ChargeCodeManager :=
  (load_charge_codes f.rawCols f.rowCells).map
    (fun l => { charge_codes := l, last_modified := some f.mtime })

/-- Model of `ChargeCodeManager.refresh_if_needed`: `found` is the result
of `find_charge_code_file()` (`none` when the directory has no matching
file).  The overall `none` is an exception escaping from the nested
`load_charge_codes` call; the no-file branch returns before any load. -/
def ChargeCodeManager.refresh_if_needed (mgr : ChargeCodeManager)
    (found : Option RefFile) : Option (ChargeCodeManager × Bool) :=
  match found with
  | none => some (mgr, false)
  | some f =>
    match mgr.last_modified with
    | none => (ChargeCodeManager.load_from f).map (fun m2 => (m2, true))
    | some lm =>
      if f.mtime > lm then (ChargeCodeManager.load_from f).map (fun m2 => (m2, true))
      else some (mgr, false)

/-! ## Shared helper lemmas about the store operations -/

/-- Case analysis of `delete_entry` (shared helper). -/
theorem delete_entry_cases (m : TimeEntryManager) (entry_id : String) (d : Int) :
    (alistFind m.entries d = none → m.delete_entry entry_id d = (m, false)) ∧
    (∀ bucket, alistFind m.entries d = some bucket →
      m.delete_entry entry_id d =
        (TimeEntryManager.save_entries
          { m with entries :=
              alistSet m.entries d (bucket.filter (fun e => !(e.id == entry_id))) },
         true)) := by
  constructor
  · intro hnone
    unfold TimeEntryManager.delete_entry
    rw [hnone]
  · intro bucket hsome
    unfold TimeEntryManager.delete_entry
    rw [hsome]

/-- The bucket looked up by `add_entry` after the empty-bucket insertion
equals the pre-call bucket view (shared helper). -/
theorem add_entry_eq (m : TimeEntryManager) (e : TimeEntry) :
    m.add_entry e =
      (let pre : EntryMap := if (alistFind m.entries e.date).isSome then m.entries
                             else alistSet m.entries e.date []
       let bucket := m.get_entries_for_date e.date
       let total := (bucket.map TimeEntry.hours).sum + e.hours
       if total > m.max_hours then ({ m with entries := pre }, false)
       else (TimeEntryManager.save_entries
              { m with entries := alistSet pre e.date (bucket ++ [e]) }, true)) := by
  unfold TimeEntryManager.add_entry
  cases hb : alistFind m.entries e.date with
  | some bucket => simp [hb, TimeEntryManager.get_entries_for_date]
  | none => simp [hb, TimeEntryManager.get_entries_for_date, alistFind_alistSet]

/-! ## Concrete sample data used by witnesses and counterexamples -/

/-- A store with a configured daily cap of 8 hours and no entries
(`features.max_hours_per_day = 8` in `config.toml`). -/
def mgrCap8 : TimeEntryManager :=
  { max_hours := 8, entries := [], saved := [] }

/-- A valid 10-hour entry (within the per-entry ceiling of 24). -/
def entry10 : TimeEntry :=
  { id := "e1", date := 0, charge_code_id := "cc1", charge_code_name := "Proj",
    hours := 10, notes := none, created_at := "t0", updated_at := "t0" }

/-- A valid 8-hour entry. -/
def entry8 : TimeEntry :=
  { id := "e2", date := 0, charge_code_id := "cc1", charge_code_name := "Proj",
    hours := 8, notes := some "work", created_at := "t0", updated_at := "t0" }

/-- An entry on a different date. -/
def entry5 : TimeEntry :=
  { id := "e3", date := 1, charge_code_id := "cc2", charge_code_name := "Other",
    hours := 5, notes := none, created_at := "t1", updated_at := "t1" }

/-- A default-capped store holding `entry8` on date 0 and `entry5` on
date 1, with its persisted document in sync. -/
def mgrTwo : TimeEntryManager :=
  { max_hours := 24, entries := [(0, [entry8]), (1, [entry5])],
    saved := serializeEntries [(0, [entry8]), (1, [entry5])] }

/-- A default-capped empty store with its persisted document in sync. -/
def mgrEmpty : TimeEntryManager :=
  { max_hours := 24, entries := [], saved := [] }

/-! ## C3 -/

/-- C3: `get_daily_entries d` returns exactly the entries stored under
`d` with `total_hours` their recomputed sum, and the `DailyEntries`
invariant `total_hours = sum of entry hours` is (re-)established by both
`DailyEntries.add_entry` and `DailyEntries.remove_entry`. -/
theorem daily_entries_total_invariant (m : TimeEntryManager) (d : Int)
    (daily : DailyEntries) (e : TimeEntry) (entry_id : String) :
    (m.get_daily_entries d).entries = m.get_entries_for_date d ∧
    (m.get_daily_entries d).total_hours
      = ((m.get_entries_for_date d).map TimeEntry.hours).sum ∧
    (daily.add_entry e).total_hours
      = ((daily.add_entry e).entries.map TimeEntry.hours).sum ∧
    (daily.remove_entry entry_id).total_hours
      = ((daily.remove_entry entry_id).entries.map TimeEntry.hours).sum :=
  ⟨rfl, rfl, rfl, rfl⟩

/-! ## C10 -/

/-- C10: when `find_charge_code_file()` locates no eligible file,
`refresh_if_needed` returns normally (no exception), reports `false`,
and leaves the whole manager state — the loaded charge-code collection
and the recorded modification time — unchanged, also in the
not-yet-loaded state (`last_modified = none`), which the universally
quantified manager includes. -/
theorem refresh_no_file_noop (mgr : ChargeCodeManager) :
    mgr.refresh_if_needed none = some (mgr, false) :=
  rfl

/-! ## C9 -/

/-- C9: `delete_entry` drops *every* entry with the given id from the
date's bucket, and the buckets of all other dates are untouched. -/
theorem delete_entry_frame (m : TimeEntryManager) (entry_id : String) (d : Int) :
    ((m.delete_entry entry_id d).1.get_entries_for_date d
      = (m.get_entries_for_date d).filter (fun e => !(e.id == entry_id))) ∧
    ∀ d2, d2 ≠ d → (m.delete_entry entry_id d).1.get_entries_for_date d2
      = m.get_entries_for_date d2 := by
  cases hfind : alistFind m.entries d with
  | none =>
    rw [(delete_entry_cases m entry_id d).1 hfind]
    constructor
    · simp [TimeEntryManager.get_entries_for_date, hfind]
    · intro d2 _
      rfl
  | some bucket =>
    rw [(delete_entry_cases m entry_id d).2 bucket hfind]
    constructor
    · simp [TimeEntryManager.get_entries_for_date, TimeEntryManager.save_entries,
        alistFind_alistSet, hfind]
    · intro d2 hne
      simp [TimeEntryManager.get_entries_for_date, TimeEntryManager.save_entries,
        alistFind_alistSet, hne]

/-- Witness for C9: deleting id `"e2"` on date 0 of the concrete store
leaves date 1 untouched. -/
theorem delete_entry_frame_witness :
    (mgrTwo.delete_entry "e2" 0).1.get_entries_for_date 1
      = mgrTwo.get_entries_for_date 1 :=
  (delete_entry_frame mgrTwo "e2" 0).2 1 (by decide)

/-! ## C5 -/

/-- C5: `delete_entry` removes any entry with the identifier from the
date's bucket (a no-op when none matches), keeps the persisted document
in sync with the store, returns `true` iff the date bucket existed before
the call, and afterwards `get_entries_for_date` never returns the
identifier.  `Synced m` states that the persisted document reflects the
in-memory store before the call. -/
theorem delete_entry_spec (m : TimeEntryManager) (entry_id : String) (d : Int)
    (h : Synced m) :
    ((m.delete_entry entry_id d).1.get_entries_for_date d
      = (m.get_entries_for_date d).filter (fun e => !(e.id == entry_id))) ∧
    (∀ e ∈ (m.delete_entry entry_id d).1.get_entries_for_date d, e.id ≠ entry_id) ∧
    Synced (m.delete_entry entry_id d).1 ∧
    ((m.delete_entry entry_id d).2 = (alistFind m.entries d).isSome) := by
  cases hfind : alistFind m.entries d with
  | none =>
    rw [(delete_entry_cases m entry_id d).1 hfind]
    refine ⟨by simp [TimeEntryManager.get_entries_for_date, hfind], ?_, h, rfl⟩
    simp [TimeEntryManager.get_entries_for_date, hfind]
  | some bucket =>
    rw [(delete_entry_cases m entry_id d).2 bucket hfind]
    refine ⟨?_, ?_, rfl, rfl⟩
    · simp [TimeEntryManager.get_entries_for_date, TimeEntryManager.save_entries,
        alistFind_alistSet, hfind]
    · intro e he
      simp [TimeEntryManager.get_entries_for_date, TimeEntryManager.save_entries,
        alistFind_alistSet, List.mem_filter] at he
      exact he.2

/-- Witness for C5: on the concrete synced store, deleting on date 0
reports `true` and the surviving date-0 bucket no longer holds the id. -/
theorem delete_entry_spec_witness :
    (mgrTwo.delete_entry "e2" 0).2 = true := by
  have h := (delete_entry_spec mgrTwo "e2" 0 rfl).2.2.2
  rw [h]
  decide

/-! ## C1 -/

/-- Counterexample for C1 as stated: with a configured cap of 8 hours and
an empty store, adding a valid 10-hour entry is rejected (reports
failure), yet the in-memory state is *not* unchanged — `add_entry`
creates the empty bucket for the date before the cap check and leaves it
behind. -/
theorem add_entry_reject_mutates_state :
    (mgrCap8.add_entry entry10).2 = false ∧
    (mgrCap8.add_entry entry10).1.entries ≠ mgrCap8.entries := by
  norm_num [mgrCap8, entry10, TimeEntryManager.add_entry,
    TimeEntryManager.save_entries, alistFind, alistSet, serializeEntries]

/-- C1 (amended): `add_entry` computes the new total of the date's bucket
including the new entry's hours.  If that total exceeds the configured
cap, the entry is not added, nothing is persisted, the observable bucket
contents of every date are unchanged and the call reports failure — but
when no bucket existed for the date, an empty in-memory bucket has been
created.  Otherwise the entry is appended to the date's bucket, the whole
store is persisted, and the call reports success. -/
theorem add_entry_spec (m : TimeEntryManager) (e : TimeEntry) :
    (((m.get_entries_for_date e.date).map TimeEntry.hours).sum + e.hours > m.max_hours →
      (m.add_entry e).2 = false ∧
      (m.add_entry e).1.saved = m.saved ∧
      (m.add_entry e).1.entries =
        (if (alistFind m.entries e.date).isSome then m.entries
         else alistSet m.entries e.date []) ∧
      ∀ d, (m.add_entry e).1.get_entries_for_date d = m.get_entries_for_date d) ∧
    (¬ ((m.get_entries_for_date e.date).map TimeEntry.hours).sum + e.hours > m.max_hours →
      (m.add_entry e).2 = true ∧
      (m.add_entry e).1.get_entries_for_date e.date
        = m.get_entries_for_date e.date ++ [e] ∧
      (∀ d, d ≠ e.date →
        (m.add_entry e).1.get_entries_for_date d = m.get_entries_for_date d) ∧
      (m.add_entry e).1.saved = serializeEntries (m.add_entry e).1.entries) := by
  rw [add_entry_eq]
  constructor
  · intro hover
    rw [if_pos hover]
    refine ⟨rfl, rfl, rfl, ?_⟩
    intro d
    cases hb : alistFind m.entries e.date with
    | some bucket => simp [TimeEntryManager.get_entries_for_date, hb]
    | none =>
      by_cases hd : d = e.date
      · subst hd
        simp [TimeEntryManager.get_entries_for_date, hb, alistFind_alistSet]
      · simp [TimeEntryManager.get_entries_for_date, hb, alistFind_alistSet, hd]
  · intro hok
    rw [if_neg hok]
    refine ⟨rfl, ?_, ?_, rfl⟩
    · simp [TimeEntryManager.get_entries_for_date, TimeEntryManager.save_entries,
        alistFind_alistSet]
    · intro d hd
      cases hb : alistFind m.entries e.date with
      | some bucket =>
        simp [TimeEntryManager.get_entries_for_date, TimeEntryManager.save_entries,
          alistFind_alistSet, hd, hb]
      | none =>
        simp [TimeEntryManager.get_entries_for_date, TimeEntryManager.save_entries,
          alistFind_alistSet, hd, hb]

/-- Witness for C1: the rejected 10-hour add on the cap-8 store reports
failure; the accepted 8-hour add on the default-capped empty store
reports success. -/
theorem add_entry_spec_witness :
    (mgrCap8.add_entry entry10).2 = false ∧ (mgrEmpty.add_entry entry8).2 = true := by
  constructor
  · exact ((add_entry_spec mgrCap8 entry10).1 (by
      norm_num [mgrCap8, entry10, TimeEntryManager.get_entries_for_date, alistFind])).1
  · exact ((add_entry_spec mgrEmpty entry8).2 (by
      norm_num [mgrEmpty, entry8, TimeEntryManager.get_entries_for_date, alistFind])).1

/-! ## C2 -/

/-- Counterexample for C2 as stated: a rejected `add_entry` on a fresh
date changes the in-memory mapping (the empty bucket appears) while the
persisted document is unchanged — exactly the split state C2 rules out. -/
theorem atomicity_violation_on_rejected_add :
    (mgrCap8.add_entry entry10).1.entries ≠ mgrCap8.entries ∧
    (mgrCap8.add_entry entry10).1.saved = mgrCap8.saved := by
  norm_num [mgrCap8, entry10, TimeEntryManager.add_entry,
    TimeEntryManager.save_entries, alistFind, alistSet, serializeEntries]

/-- C2 (amended): starting from a store whose persisted document is in
sync, `delete_entry` always leaves store and document in sync, and so
does a successful `add_entry`; a rejected `add_entry` leaves the
persisted document and every date's observable bucket contents unchanged,
but may leave behind a fresh empty in-memory bucket for the entry's date
that is not persisted. -/
theorem sync_preservation (m : TimeEntryManager) (e : TimeEntry)
    (entry_id : String) (d : Int) (h : Synced m) :
    Synced (m.delete_entry entry_id d).1 ∧
    ((m.add_entry e).2 = true → Synced (m.add_entry e).1) ∧
    ((m.add_entry e).2 = false →
      (m.add_entry e).1.saved = m.saved ∧
      ∀ d2, (m.add_entry e).1.get_entries_for_date d2 = m.get_entries_for_date d2) := by
  refine ⟨?_, ?_, ?_⟩
  · cases hfind : alistFind m.entries d with
    | none =>
      rw [(delete_entry_cases m entry_id d).1 hfind]
      exact h
    | some bucket =>
      rw [(delete_entry_cases m entry_id d).2 bucket hfind]
      rfl
  · intro hok
    rw [add_entry_eq] at hok ⊢
    by_cases hcond :
        ((m.get_entries_for_date e.date).map TimeEntry.hours).sum + e.hours > m.max_hours
    · rw [if_pos hcond] at hok
      simp at hok
    · rw [if_neg hcond]
      rfl
  · intro hfail
    rw [add_entry_eq] at hfail ⊢
    by_cases hcond :
        ((m.get_entries_for_date e.date).map TimeEntry.hours).sum + e.hours > m.max_hours
    · rw [if_pos hcond]
      refine ⟨rfl, ?_⟩
      intro d2
      cases hb : alistFind m.entries e.date with
      | some bucket => simp [TimeEntryManager.get_entries_for_date, hb]
      | none =>
        by_cases hd : d2 = e.date
        · subst hd
          simp [TimeEntryManager.get_entries_for_date, hb, alistFind_alistSet]
        · simp [TimeEntryManager.get_entries_for_date, hb, alistFind_alistSet, hd]
    · rw [if_neg hcond] at hfail
      simp at hfail

/-- Witness for C2 (amended): the concrete synced two-entry store after a
delete, plus the two add branches on concrete synced stores. -/
theorem sync_preservation_witness :
    Synced (mgrTwo.delete_entry "e2" 0).1 := by
  have h := (sync_preservation mgrTwo entry8 "e2" 0 rfl).1
  exact h

/-! ## C4 -/

/-- When no processed row raises, the loop returns exactly the records
of the non-skipped rows in order (shared helper). -/
theorem loadRows_of_no_error (columns : List String) :
    ∀ rows : List Row, (∀ row ∈ rows, processRow columns row ≠ RowOutcome.error) →
      loadRows columns rows
        = some (rows.filterMap (fun row =>
            match processRow columns row with
            | RowOutcome.record c => some c
            | _ => none)) := by
  intro rows
  induction rows with
  | nil => intro _; rfl
  | cons row rest ih =>
    intro h
    have hrest := fun r hr => h r (List.mem_cons_of_mem row hr)
    have hhead := h row (List.mem_cons_self row rest)
    cases hp : processRow columns row with
    | skipped => simp [loadRows, hp, ih hrest, List.filterMap_cons]
    | record c => simp [loadRows, hp, ih hrest, List.filterMap_cons]
    | error => exact absurd hp hhead

/-- If any row of the file raises a `ValidationError`, the whole load
aborts with no records (shared helper). -/
theorem loadRows_of_error (columns : List String) :
    ∀ rows : List Row, (∃ row ∈ rows, processRow columns row = RowOutcome.error) →
      loadRows columns rows = none := by
  intro rows
  induction rows with
  | nil =>
    rintro ⟨r, hr, _⟩
    cases hr
  | cons row rest ih =>
    rintro ⟨r, hr, herr⟩
    rcases List.mem_cons.mp hr with h1 | h2
    · subst h1
      simp [loadRows, herr]
    · cases hp : processRow columns row with
      | skipped => simp [loadRows, hp, ih ⟨r, h2, herr⟩]
      | record c => simp [loadRows, hp, ih ⟨r, h2, herr⟩]
      | error => simp [loadRows, hp]

/-- Counterexample for C4 as stated, in both directions.  First: a row
whose `friendly_name` cell is a whitespace-only string is *not* skipped —
`pd.notna` accepts it, it is trimmed to the empty string, and a
`ChargeCode` with an empty `friendly_name` is produced.  Second: a row
with a present `friendly_name` but a `percent` cell that Python's
`float()` rejects makes `ChargeCode(**charge_code_data)` raise a
pydantic `ValidationError`, aborting the entire load with no records —
the load *does* fail, and the good first row is lost too. -/
theorem load_charge_codes_empty_friendly_name :
    (load_charge_codes ["friendly_name"] [[some " "]]).map
        (fun l => l.map ChargeCode.friendly_name) = some [""] ∧
    load_charge_codes ["friendly_name", "percent"]
        [[some "Good", some "50"], [some "Bad", some "abc"]] = none := by
  constructor <;> decide

/-- C4 (amended): a row is skipped iff no alias of `friendly_name`
yields a present (non-NA) cell; a produced record's `friendly_name` is
the winning alias's stringified, trimmed cell, which may be empty; a row
raises iff `friendly_name` is present and a present `percent` cell fails
Python's `float(...)` coercion.  When no row raises, the load succeeds
and returns exactly the records of the non-skipped rows in order —
skipped rows do not fail the load; when some row raises, the whole load
aborts with no records. -/
theorem load_charge_codes_skip_spec (rawCols : List String)
    (rowCells : List (List (Option String))) :
    (∀ columns row, (processRow columns row = RowOutcome.skipped
        ↔ lookupField columns row (fieldAliases "friendly_name") = none)) ∧
    (∀ columns row c, processRow columns row = RowOutcome.record c →
        lookupField columns row (fieldAliases "friendly_name")
          = some c.friendly_name) ∧
    (∀ columns row, (processRow columns row = RowOutcome.error
        ↔ (lookupField columns row (fieldAliases "friendly_name")).isSome
            ∧ ∃ ps, lookupField columns row (fieldAliases "percent") = some ps
                ∧ pyFloatParse ps = none)) ∧
    ((∀ row ∈ rowCells.map (fun cs => (rawCols.map normalizeHeader).zip cs),
        processRow (rawCols.map normalizeHeader) row ≠ RowOutcome.error) →
      load_charge_codes rawCols rowCells
        = some ((rowCells.map (fun cs => (rawCols.map normalizeHeader).zip cs)).filterMap
            (fun row =>
              match processRow (rawCols.map normalizeHeader) row with
              | RowOutcome.record c => some c
              | _ => none))) ∧
    ((∃ row ∈ rowCells.map (fun cs => (rawCols.map normalizeHeader).zip cs),
        processRow (rawCols.map normalizeHeader) row = RowOutcome.error) →
      load_charge_codes rawCols rowCells = none) := by
  refine ⟨?_, ?_, ?_, ?_, ?_⟩
  · intro columns row
    unfold processRow
    cases hlk : lookupField columns row (fieldAliases "friendly_name") with
    | none => simp
    | some fn =>
      cases hps : lookupField columns row (fieldAliases "percent") with
      | none => simp
      | some ps => cases hv : pyFloatParse ps <;> simp [hv]
  · intro columns row c hc
    unfold processRow at hc
    cases hlk : lookupField columns row (fieldAliases "friendly_name") with
    | none => simp [hlk] at hc
    | some fn =>
      cases hps : lookupField columns row (fieldAliases "percent") with
      | none =>
        simp [hlk, hps] at hc
        subst hc
        rfl
      | some ps =>
        cases hv : pyFloatParse ps with
        | none => simp [hlk, hps, hv] at hc
        | some v =>
          simp [hlk, hps, hv] at hc
          subst hc
          rfl
  · intro columns row
    unfold processRow
    cases hlk : lookupField columns row (fieldAliases "friendly_name") with
    | none => simp
    | some fn =>
      cases hps : lookupField columns row (fieldAliases "percent") with
      | none => simp
      | some ps => cases hv : pyFloatParse ps <;> simp [hv]
  · intro hnoerr
    exact loadRows_of_no_error (rawCols.map normalizeHeader) _ hnoerr
  · intro herr
    exact loadRows_of_error (rawCols.map normalizeHeader) _ herr

/-- Witness for C4 (amended): on a concrete file with one good row and
one friendly-name-less row, no row raises and the load returns exactly
the one record, its `friendly_name` trimmed from the winning alias. -/
theorem load_charge_codes_skip_spec_witness :
    load_charge_codes ["friendly_name"] [[some " Acme "], [none]]
      = some [{ friendly_name := "Acme" }] := by
  have h := (load_charge_codes_skip_spec ["friendly_name"] [[some " Acme "], [none]]).2.2.2.1
    (by decide)
  rw [h]
  decide

/-! ## C8 -/

/-- Re-parsing one serialized entry restores it, provided its hours pass
the pydantic validation (all stored entries do). -/
theorem parseEntry_dict (e : TimeEntry) (h : hoursValid e.hours) :
    parseEntry e.dict = some e := by
  simp [parseEntry, TimeEntry.dict, h]

/-- Re-parsing one serialized bucket restores it. -/
theorem parseBucket_map_dict (l : List TimeEntry)
    (h : ∀ e ∈ l, hoursValid e.hours) :
    parseBucket (l.map TimeEntry.dict) = some l := by
  induction l with
  | nil => rfl
  | cons e rest ih =>
    have he : hoursValid e.hours := h e (List.mem_cons_self e rest)
    have hrest : ∀ x ∈ rest, hoursValid x.hours :=
      fun x hx => h x (List.mem_cons_of_mem e hx)
    simp [parseBucket, parseEntry_dict e he, ih hrest]

/-- Re-parsing the whole serialized document restores the mapping. -/
theorem parseDoc_serialize (m : EntryMap)
    (h : ∀ p ∈ m, ∀ e ∈ p.2, hoursValid e.hours) :
    parseDoc (serializeEntries m) = some m := by
  induction m with
  | nil => rfl
  | cons p rest ih =>
    have hp : ∀ e ∈ p.2, hoursValid e.hours := h p (List.mem_cons_self p rest)
    have hrest : ∀ q ∈ rest, ∀ e ∈ q.2, hoursValid e.hours :=
      fun q hq => h q (List.mem_cons_of_mem p hq)
    have ih2 := ih hrest
    simp only [serializeEntries, List.map_cons] at ih2 ⊢
    simp [parseDoc, parseBucket_map_dict p.2 hp, ih2]

/-- C8: persisting the store and reloading from the persisted document
yields an identical date→entries mapping (all fields, hence in particular
the same ids, hours and notes), for every store whose entries carry valid
hours — which every entry admitted by the pydantic constructor does. -/
theorem save_load_roundtrip (m : TimeEntryManager)
    (h : ∀ p ∈ m.entries, ∀ e ∈ p.2, hoursValid e.hours) :
    load_entries (m.save_entries).saved = m.entries := by
  unfold load_entries TimeEntryManager.save_entries
  rw [parseDoc_serialize m.entries h]
  rfl

/-- Witness for C8: the concrete two-entry store round-trips. -/
theorem save_load_roundtrip_witness :
    load_entries (mgrTwo.save_entries).saved = mgrTwo.entries :=
  save_load_roundtrip mgrTwo (by decide)

/-! ## C6 -/

/-- The calendar days from `start_date` to `end_date` inclusive, in
ascending order (the days the range loop visits). -/
def rangeDays (start_date end_date : Int) : List Int :=
  (List.range (end_date + 1 - start_date).toNat).map
    (fun i : ℕ => start_date + (i : Int))

theorem rangeDays_nil (start_date end_date : Int) (h : end_date < start_date) :
    rangeDays start_date end_date = [] := by
  have h0 : (end_date + 1 - start_date).toNat = 0 := by omega
  simp [rangeDays, h0]

theorem rangeDays_cons (start_date end_date : Int) (h : start_date ≤ end_date) :
    rangeDays start_date end_date = start_date :: rangeDays (start_date + 1) end_date := by
  have hn : (end_date + 1 - start_date).toNat
      = (end_date + 1 - (start_date + 1)).toNat + 1 := by omega
  unfold rangeDays
  rw [hn, List.range_succ_eq_map, List.map_cons, List.map_map]
  have hfun : ((fun i : ℕ => start_date + (i : Int)) ∘ Nat.succ)
      = (fun i : ℕ => (start_date + 1) + (i : Int)) := by
    funext i
    simp only [Function.comp_apply]
    push_cast
    ring
  rw [hfun]
  simp

/-- The range loop concatenates the day buckets in ascending order
(shared helper, by induction on the number of remaining days). -/
theorem get_entries_for_range_eq (m : TimeEntryManager) :
    ∀ (n : ℕ) (start_date end_date : Int),
      (end_date + 1 - start_date).toNat = n →
      m.get_entries_for_range start_date end_date
        = (rangeDays start_date end_date).flatMap m.get_entries_for_date := by
  intro n
  induction n with
  | zero =>
    intro s e hn
    have hlt : ¬ s ≤ e := by omega
    unfold TimeEntryManager.get_entries_for_range
    rw [dif_neg hlt, rangeDays_nil s e (by omega)]
    rfl
  | succ k ih =>
    intro s e hn
    have hle : s ≤ e := by omega
    unfold TimeEntryManager.get_entries_for_range
    rw [dif_pos hle, rangeDays_cons s e hle, List.flatMap_cons,
      ih (s + 1) e (by omega)]

/-- C6: `get_entries_for_range start end` equals the concatenation of
`get_entries_for_date d` over every calendar day `d` from `start` to
`end` inclusive in ascending order, and is empty (not an error) when
`start > end`. -/
theorem entries_in_range_spec (m : TimeEntryManager) (start_date end_date : Int) :
    m.get_entries_for_range start_date end_date
      = (rangeDays start_date end_date).flatMap m.get_entries_for_date ∧
    (start_date > end_date → m.get_entries_for_range start_date end_date = []) := by
  constructor
  · exact get_entries_for_range_eq m _ start_date end_date rfl
  · intro hgt
    rw [get_entries_for_range_eq m _ start_date end_date rfl,
      rangeDays_nil start_date end_date hgt]
    rfl

/-- Witness for C6: an inverted range on the concrete store yields `[]`. -/
theorem entries_in_range_spec_witness :
    mgrTwo.get_entries_for_range 5 3 = [] :=
  (entries_in_range_spec mgrTwo 5 3).2 (by decide)

/-! ## C7 -/

/-- The contributions the weekly loop folds in: each visited day whose
bucket is nonempty, paired with that day's recomputed total. -/
def dayTotals (m : TimeEntryManager) (days : List Int) : List (Int × ℚ) :=
  (days.filter (fun d => !(m.get_entries_for_date d).isEmpty)).map
    (fun d => (d, ((m.get_entries_for_date d).map TimeEntry.hours).sum))

/-- Invariant lemma for the weekly loop (shared helper): visiting the
days `cur..week_end` appends exactly the nonempty days' totals to
`daily_totals`, keeps the window fields, and keeps `total_hours` equal to
the sum of `daily_totals.values()`. -/
theorem weekly_loop_spec (m : TimeEntryManager) :
    ∀ (n : ℕ) (cur week_end : Int) (s : WeeklySummary),
      (week_end + 1 - cur).toNat = n →
      (∀ d, cur ≤ d → alistFind s.daily_totals d = none) →
      s.total_hours = (s.daily_totals.map Prod.snd).sum →
      (m.weekly_loop cur week_end s).week_start = s.week_start ∧
      (m.weekly_loop cur week_end s).week_end = s.week_end ∧
      (m.weekly_loop cur week_end s).daily_totals
        = s.daily_totals ++ dayTotals m (rangeDays cur week_end) ∧
      (m.weekly_loop cur week_end s).total_hours
        = ((m.weekly_loop cur week_end s).daily_totals.map Prod.snd).sum := by
  intro n
  induction n with
  | zero =>
    intro cur week_end s hn hkeys hinv
    have hlt : ¬ cur ≤ week_end := by omega
    unfold TimeEntryManager.weekly_loop
    rw [dif_neg hlt, rangeDays_nil cur week_end (by omega)]
    exact ⟨rfl, rfl, by simp [dayTotals], hinv⟩
  | succ k ih =>
    intro cur week_end s hn hkeys hinv
    have hle : cur ≤ week_end := by omega
    have hcons := rangeDays_cons cur week_end hle
    unfold TimeEntryManager.weekly_loop
    rw [dif_pos hle]
    simp only []
    by_cases hempty : (m.get_entries_for_date cur).isEmpty
    · have hif : ((m.get_daily_entries cur).entries.isEmpty) = true := hempty
      rw [if_pos hif]
      have hkeys1 : ∀ d, cur + 1 ≤ d → alistFind s.daily_totals d = none :=
        fun d hd => hkeys d (by omega)
      have h := ih (cur + 1) week_end s (by omega) hkeys1 hinv
      refine ⟨h.1, h.2.1, ?_, h.2.2.2⟩
      rw [h.2.2.1, hcons]
      simp [dayTotals, List.filter_cons, hempty]
    · have hif : ((m.get_daily_entries cur).entries.isEmpty) = false := by
        simpa using hempty
      rw [if_neg (by simp [hif])]
      have hfindcur : alistFind s.daily_totals cur = none := hkeys cur le_rfl
      have hdt : (s.add_daily_entries (m.get_daily_entries cur)).daily_totals
          = s.daily_totals
              ++ [(cur, ((m.get_entries_for_date cur).map TimeEntry.hours).sum)] := by
        show alistSet s.daily_totals cur _ = _
        rw [alistSet_of_find_none s.daily_totals cur _ hfindcur]
        rfl
      have hkeys1 : ∀ d, cur + 1 ≤ d →
          alistFind (s.add_daily_entries (m.get_daily_entries cur)).daily_totals d
            = none := by
        intro d hd
        rw [hdt, alistFind_append_single]
        rw [hkeys d (by omega)]
        have hne : ¬ d = cur := by omega
        simp [Option.orElse, hne]
      have hinv1 : (s.add_daily_entries (m.get_daily_entries cur)).total_hours
          = ((s.add_daily_entries (m.get_daily_entries cur)).daily_totals.map
              Prod.snd).sum := rfl
      have h := ih (cur + 1) week_end (s.add_daily_entries (m.get_daily_entries cur))
        (by omega) hkeys1 hinv1
      refine ⟨h.1, h.2.1, ?_, h.2.2.2⟩
      rw [h.2.2.1, hdt, hcons]
      simp [dayTotals, List.filter_cons, hempty]

/-- Dropped (empty-bucket) days contribute zero, so the sum over the kept
days equals the sum over all days (shared helper). -/
theorem sum_dayTotals (m : TimeEntryManager) (days : List Int) :
    ((dayTotals m days).map Prod.snd).sum
      = (days.map
          (fun d => ((m.get_entries_for_date d).map TimeEntry.hours).sum)).sum := by
  induction days with
  | nil => rfl
  | cons d rest ih =>
    by_cases hempty : (m.get_entries_for_date d).isEmpty
    · have hnil : m.get_entries_for_date d = [] := by
        simpa using hempty
      simp [dayTotals, List.filter_cons, hempty, hnil]
      simpa [dayTotals] using ih
    · simp [dayTotals, List.filter_cons, hempty]
      simpa [dayTotals] using ih

/-- C7: `get_weekly_summary week_start` covers exactly the window
`[week_start, week_start + 6]`, records a `daily_totals` contribution for
precisely the days of that window with a nonempty bucket (the loop skips
days with zero entries), and its `total_hours` equals the sum over all
seven days of that day's daily total. -/
theorem weekly_summary_spec (m : TimeEntryManager) (week_start : Int) :
    (m.get_weekly_summary week_start).week_start = week_start ∧
    (m.get_weekly_summary week_start).week_end = week_start + 6 ∧
    (m.get_weekly_summary week_start).daily_totals
      = dayTotals m (rangeDays week_start (week_start + 6)) ∧
    (m.get_weekly_summary week_start).total_hours
      = ((rangeDays week_start (week_start + 6)).map
          (fun d => (m.get_daily_entries d).total_hours)).sum := by
  have h := weekly_loop_spec m ((week_start + 6 + 1 - week_start).toNat) week_start
    (week_start + 6)
    { week_start := week_start, week_end := week_start + 6, total_hours := 0,
      entries_by_charge_code := [], daily_totals := [] }
    rfl (fun d _ => rfl) rfl
  refine ⟨h.1, h.2.1, ?_, ?_⟩
  · rw [show m.get_weekly_summary week_start
        = m.weekly_loop week_start (week_start + 6)
            { week_start := week_start, week_end := week_start + 6, total_hours := 0,
              entries_by_charge_code := [], daily_totals := [] } from rfl,
      h.2.2.1]
    simp
  · rw [show m.get_weekly_summary week_start
        = m.weekly_loop week_start (week_start + 6)
            { week_start := week_start, week_end := week_start + 6, total_hours := 0,
              entries_by_charge_code := [], daily_totals := [] } from rfl,
      h.2.2.2, h.2.2.1]
    simp only [List.nil_append]
    rw [sum_dayTotals]
    rfl

end Timesheet
